import Mathlib

/-!
Verification of the audio post-processing core of the RedDiss pipeline
(src/agents/beat_sync.py, src/agents/mastering.py, src/agents/sanitizer.py).

Waveforms are modelled as `List ℚ` (exact rational samples standing for the
Python floats); numpy elementwise operations become `List.map` / `List.zipWith`,
and numpy's non-finite results (NaN from an unguarded 0/0) are modelled by
returning `Option.none` from the operation that produces them.
-/

namespace RedDiss

/-- `np.max(np.abs(l))` with the convention that the peak of an empty list
is 0 (numpy raises on an empty reduction; callers that can reach that case
handle emptiness separately). -/
def listPeak (l : List ℚ) : ℚ :=
  l.foldl (fun m x => max m |x|) 0

/-- `BeatSynchronizer._mix_audio(vocals, beat)` from src/agents/beat_sync.py:
scale vocals by 0.8 and beat by 0.6, zero-pad the shorter to the longer's
length, sum, and divide by the maximum absolute sample.  The code performs
`mixed / np.max(np.abs(mixed))` with no guard: when the summed mix is
all-zero this is numpy `0/0`, i.e. every sample becomes NaN (and for empty
inputs `np.max` raises); both non-finite outcomes are modelled as `none`. -/
def _mix_audio (vocals beat : List ℚ) : Option (List ℚ) :=
  let maxLen := max vocals.length beat.length
  let v := vocals ++ List.replicate (maxLen - vocals.length) 0
  let b := beat ++ List.replicate (maxLen - beat.length) 0
  let mixed := List.zipWith (fun x y => x * (4/5) + y * (3/5)) v b
  let peak := listPeak mixed
  if peak = 0 then none else some (mixed.map (fun x => x / peak))

/-- The hard-clip step of `AudioMaster._apply_limiting`:
`processed[mask] = np.sign(processed[mask]) * target_peak` for the mask
`np.abs(processed) > target_peak`. -/
def clipSample (tp x : ℚ) : ℚ :=
  if tp < |x| then (if 0 < x then tp else if x < 0 then -tp else 0) else x

/-- `AudioMaster._apply_limiting(audio)` from src/agents/mastering.py.
The linear target peak `10 ** (self.target_peak / 20)` (= 10^(-1/20), an
irrational constant) is taken as the parameter `tp`; the code then computes
`gain = min(target_peak / peak, 1.0)`, applies it, and hard-clips.
For an all-zero input numpy computes `tp / 0.0 = inf` and `min(inf, 1) = 1`
while `ℚ` division yields `tp / 0 = 0`; both give the all-zero output, so the
model agrees with the code on every input. -/
def _apply_limiting (tp : ℚ) (wave : List ℚ) : List ℚ :=
  let peak := listPeak wave
  let gain := min (tp / peak) 1
  (wave.map (fun x => x * gain)).map (clipSample tp)

/-- The per-sample gain computed inside the loop of
`AudioMaster._apply_compression` before smoothing: when `abs(audio[i])`
exceeds the threshold, `gain = (threshold + (abs - threshold) / 4) / abs`,
otherwise the initialised value 1. -/
def rawGain (thr a : ℚ) : ℚ :=
  if thr < |a| then (thr + (|a| - thr) / 4) / |a| else 1

/-- The attack/release smoothing of `AudioMaster._apply_compression`:
`gain[i] = gain[i-1] + (gain[i] - gain[i-1]) * attack` when the raw gain
dropped below the previous one (attack = 0.003), else the same update with
release = 0.1. -/
def smoothGain (prev raw : ℚ) : ℚ :=
  if raw < prev then prev + (raw - prev) * (3/1000)
  else prev + (raw - prev) * (1/10)

/-- The sample loop of `AudioMaster._apply_compression`, carrying the
previous smoothed gain (`none` at index 0, where the code skips smoothing). -/
def compressAux (thr : ℚ) : Option ℚ → List ℚ → List ℚ
  | _, [] => []
  | prev, a :: rest =>
    let raw := rawGain thr a
    let g := match prev with
      | none => raw
      | some p => smoothGain p raw
    a * g :: compressAux thr (some g) rest

/-- `AudioMaster._apply_compression(audio)` from src/agents/mastering.py,
parametrised by the threshold `threshold = np.mean(librosa.feature.rms(y=audio)[0]) * 1.5`
(an external library computation, always nonnegative). -/
def _apply_compression (thr : ℚ) (wave : List ℚ) : List ℚ :=
  compressAux thr none wave

/-- The EQ bands of `AudioMaster._apply_eq`, in the insertion order of the
Python dict: (low, high, gain) with the `highs` upper edge `sr // 2`
(Python integer division). -/
def eqBands (sr : ℕ) : List (ℚ × ℚ × ℚ) :=
  [(20, 60, 6/5), (60, 250, 11/10), (250, 2000, 9/10),
   (2000, 6000, 11/10), (6000, ((sr / 2 : ℕ) : ℚ), 21/20)]

/-- `librosa.fft_frequencies(sr=sr)[k] = k * sr / n_fft` (the code uses the
default `n_fft = 2048`). -/
def fftFreq (sr nfft k : ℕ) : ℚ :=
  (k : ℚ) * (sr : ℚ) / (nfft : ℚ)

/-- The net multiplier a frequency bin receives in `AudioMaster._apply_eq`:
the band masks `(freqs >= low) & (freqs <= high)` are applied one after the
other, so the bin is multiplied by the gain of every band whose inclusive
range contains it. -/
def eqMultiplier (sr nfft k : ℕ) : ℚ :=
  (eqBands sr).foldl
    (fun g b => if b.1 ≤ fftFreq sr nfft k ∧ fftFreq sr nfft k ≤ b.2.1 then g * b.2.2 else g) 1

/-- Number of EQ bands whose inclusive range contains bin `k`. -/
def countBands (sr nfft k : ℕ) : ℕ :=
  ((eqBands sr).filter
    (fun b => decide (b.1 ≤ fftFreq sr nfft k ∧ fftFreq sr nfft k ≤ b.2.1))).length

/-- `AudioMaster._apply_eq` acting on a spectrogram `D` (rows = frequency
bins): row `k` is multiplied by the accumulated band gains of bin `k`. -/
def _apply_eq (sr nfft : ℕ) (D : List (List ℚ)) : List (List ℚ) :=
  D.mapIdx (fun k row => row.map (fun x => x * eqMultiplier sr nfft k))

/-- `np.roll(a, k)`: circular shift, `out[j] = a[(j - k) mod n]`. -/
def nproll (k : ℕ) (a : List ℚ) : List ℚ :=
  List.ofFn (fun j : Fin a.length =>
    a.get ⟨(((j : ℤ) - (k : ℤ)) % (a.length : ℤ)).toNat, by
      have hpos : (0:ℤ) < (a.length : ℤ) := by exact_mod_cast j.pos
      have h1 := Int.emod_nonneg ((j : ℤ) - (k : ℤ)) (by omega : (a.length : ℤ) ≠ 0)
      have h2 := Int.emod_lt_of_pos ((j : ℤ) - (k : ℤ)) hpos
      omega⟩)

/-- `AudioMaster._enhance_stereo(audio)` from src/agents/mastering.py:
`left = audio`, `right = np.roll(audio, int(0.02 * 44100))` (= 882 samples),
stacked into two channels. -/
def _enhance_stereo (wave : List ℚ) : List ℚ × List ℚ :=
  (wave, nproll 882 wave)

/-- Modelled from the spec's words: the second channel "delayed by a fixed
20 ms ... 0.02 × 44100" samples, i.e. silence for the first 882 indices and
`input[i - 882]` afterwards, at the input's length.  Used only to compare
the spec's "delayed" semantics with the code's `np.roll`. -/
def specDelayedBy (d : ℕ) (a : List ℚ) : List ℚ :=
  List.ofFn (fun j : Fin a.length =>
    if (j : ℕ) < d then 0 else a.getD ((j : ℕ) - d) 0)

/-- The four-stage processing chain of `AudioMaster.master_audio`
(src/agents/mastering.py): compression, EQ (with the external STFT/ISTFT
transforms passed in as functions), stereo enhancement, limiting.  The final
2-channel array is represented by concatenating the two channels (numpy's
elementwise operations and whole-array reductions act identically on the
flattened data). -/
def master_audio_chain (thr tp : ℚ) (sr nfft : ℕ)
    (stftF : List ℚ → List (List ℚ)) (istftF : List (List ℚ) → List ℚ)
    (wave : List ℚ) : List ℚ :=
  let c := _apply_compression thr wave
  let e := istftF (_apply_eq sr nfft (stftF c))
  let st := _enhance_stereo e
  _apply_limiting tp (st.1 ++ st.2)

/-- `beat_times[np.argmin(np.abs(beat_times - onset_time))]`: the first
beat timestamp at minimal absolute distance from `t` (`np.argmin` returns
the first index attaining the minimum; on an empty array it raises, which
`_align_to_grid` guards via its own emptiness test). -/
def nearestBeat (beats : List ℚ) (t : ℚ) : ℚ :=
  match beats with
  | [] => 0
  | b :: bs => (bs.foldl (fun acc x => if |x - t| < |acc - t| then x else acc) b)

/-- The shift an onset produces in `_align_to_grid`: `time_diff =
nearest_beat - onset_time`; the branch taken (`time_diff > 0`) and the
sample count `int(time_diff * sr)` resp. `int(-time_diff * sr)` (Python
`int()` truncation of a nonnegative value = floor). -/
def actOf (sr : ℕ) (beats : List ℚ) (t : ℚ) : Bool × ℕ :=
  let d := nearestBeat beats t - t
  if 0 < d then (true, Nat.floor (d * (sr : ℚ)))
  else (false, Nat.floor (-d * (sr : ℚ)))

/-- Does the slice assignment of one onset write index `j` of the output
buffer?  Positive branch: `out_audio[shift:] = audio[:-shift]` writes
`[shift, n)`; negative branch: `out_audio[:-shift] = audio[shift:]` writes
`[0, n - shift)` — except that for `shift = 0` the Python slice `[:-0]`
is `[:0]`, the empty slice, so nothing is written. -/
def coversb (n : ℕ) (a : Bool × ℕ) (j : ℕ) : Bool :=
  if a.1 then decide (a.2 ≤ j) else decide (0 < a.2 ∧ j < n - a.2)

/-- The sample an onset's slice assignment writes at output index `j`:
`audio[j - shift]` in the positive branch, `audio[j + shift]` in the
negative one. -/
def shiftedVal (wave : List ℚ) (a : Bool × ℕ) (j : ℕ) : ℚ :=
  if a.1 then wave.getD (j - a.2) 0 else wave.getD (j + a.2) 0

/-- Whether one onset's numpy slice assignment is shape-compatible.
With `shift ≥ 1` both sides of the assignment have length `n - shift`.
With `shift = 0` the positive branch assigns the empty `audio[:-0]` to the
full `out_audio[0:]` (fails unless `n = 0`) and the negative branch assigns
the full `audio[0:]` to the empty `out_audio[:-0]` (fails unless the source
has length ≤ 1, since a length-1 source broadcasts). -/
def broadcastOk (n : ℕ) (a : Bool × ℕ) : Bool :=
  if a.1 then decide (1 ≤ a.2 ∨ n = 0) else decide (1 ≤ a.2 ∨ n ≤ 1)

/-- One onset's slice assignment into the shared output buffer, assuming it
is shape-compatible. -/
def alignWrite (wave out : List ℚ) (a : Bool × ℕ) : List ℚ :=
  (List.range out.length).map
    (fun j => if coversb wave.length a j then shiftedVal wave a j else out.getD j 0)

/-- One loop iteration of `_align_to_grid`: `none` when the numpy slice
assignment raises a broadcast `ValueError`. -/
def alignStep (wave : List ℚ) (out : List ℚ) (a : Bool × ℕ) : Option (List ℚ) :=
  if broadcastOk wave.length a then some (alignWrite wave out a) else none

/-- `BeatSynchronizer._align_to_grid(audio, sr, beat_times)` from
src/agents/beat_sync.py, with the detected onset times passed in (the code
obtains them from `librosa.onset.onset_detect`, an external call).  The
output buffer starts as `np.zeros_like(audio)` and each onset performs its
slice assignment in order; `none` models an exception (the `np.argmin` of an
empty beat array, or a broadcast failure in a slice assignment). -/
def _align_to_grid (sr : ℕ) (wave : List ℚ) (beats onsets : List ℚ) :
    Option (List ℚ) :=
  if beats = [] ∧ onsets ≠ [] then none
  else (onsets.map (actOf sr beats)).foldlM (alignStep wave)
    (List.replicate wave.length 0)

/-- The value the claim's last-onset-wins semantics predicts at output
index `j`: the shifted sample of the last onset whose written region covers
`j`, and silence (0) if no onset writes `j`. -/
def lastOnsetValue (wave : List ℚ) (acts : List (Bool × ℕ)) (j : ℕ) : ℚ :=
  match acts.reverse.find? (fun a => coversb wave.length a j) with
  | some a => shiftedVal wave a j
  | none => 0

/-- Outcomes of the external sub-steps of one `BeatSynchronizer.sync_to_beat`
run (src/agents/beat_sync.py).  Each `Except` field models the result of the
corresponding library or network call in this run: `Except.error` means the
call raised.  `status` is the HTTP status the beat download receives. -/
structure SyncEnv where
  loadVocals : Except String (List ℚ × ℕ)
  status : ℕ
  tempPath : String
  loadBeat : Except String (List ℚ × ℕ)
  beatTrack : Except String (ℚ × List ℚ)
  vocalTempo : Except String ℚ
  timeStretch : Except String (List ℚ)
  onsets : Except String (List ℚ)
  writeWav : Except String Unit
  writeMeta : Except String Unit

/-- `BeatSynchronizer._download_beat(url)`: returns the temp-file path on
HTTP status 200, raises `Exception("Failed to download beat: ...")`
otherwise. -/
def _download_beat (env : SyncEnv) (_url : String) : Except String String :=
  if env.status = 200 then Except.ok env.tempPath
  else Except.error ("Failed to download beat: " ++ toString env.status)

/-- The body of the `try:` block of `BeatSynchronizer.sync_to_beat`
(src/agents/beat_sync.py), as a computation in `Except`: load vocals,
download and load the beat, track its tempo and grid, time-stretch the
vocals when their own estimated tempo is positive, align to the grid, mix,
and write the result and metadata, returning the fixed output path.
The mix step raises only when both inputs are empty (`np.max` of an empty
reduction); a silent non-empty mix proceeds with non-finite (NaN) samples,
represented by a zero placeholder list, without raising. -/
def syncBody (env : SyncEnv) (_beatUrl : String) : Except String String :=
  Except.bind env.loadVocals (fun vs =>
  Except.bind (_download_beat env _beatUrl) (fun _p =>
  Except.bind env.loadBeat (fun bb =>
  Except.bind env.beatTrack (fun tb =>
  Except.bind env.vocalTempo (fun vt =>
  Except.bind (if 0 < vt then env.timeStretch else Except.ok vs.1) (fun stretched =>
  Except.bind env.onsets (fun ons =>
  Except.bind (match _align_to_grid vs.2 stretched tb.2 ons with
               | some a => Except.ok a
               | none => Except.error "could not broadcast input array") (fun aligned =>
  Except.bind (if aligned = [] ∧ bb.1 = [] then
                 Except.error "zero-size array to reduction operation"
               else Except.ok ((_mix_audio aligned bb.1).getD
                 (List.replicate (max aligned.length bb.1.length) 0))) (fun _mixed =>
  Except.bind env.writeWav (fun _ =>
  Except.bind env.writeMeta (fun _ =>
  Except.ok "data/audio/synced_track.wav")))))))))))

/-- `BeatSynchronizer.sync_to_beat(vocals_path, beat_url)`: the whole body
runs inside `try: ... except Exception: return vocals_path`, so the function
returns the output path on success and the original vocals path whenever any
sub-step raises. -/
def sync_to_beat (env : SyncEnv) (vocalsPath beatUrl : String) : String :=
  match syncBody env beatUrl with
  | Except.ok p => p
  | Except.error _ => vocalsPath

/-- A raw Reddit comment record as consumed by `clean_text`
(src/agents/sanitizer.py): `body`, `author`, `score`. -/
structure RawComment where
  body : String
  author : String
  score : ℤ
deriving DecidableEq

/-- A cleaned comment record as produced by `clean_text`: cleaned `text`,
with `author` and `score` preserved. -/
structure CleanedComment where
  text : String
  author : String
  score : ℤ
deriving DecidableEq

/-- The comparator realising `sorted(..., key=lambda x: x["score"],
reverse=True)`: `a` may stay before `b` iff `a`'s score is not smaller. -/
def scoreDescB (a b : CleanedComment) : Bool :=
  decide (b.score ≤ a.score)

/-- The comment processing of `clean_text` (src/agents/sanitizer.py),
parametrised by the text cleaner `_clean_string` (a chain of regex
substitutions, passed in as `cleanF`): keep the comments with
`comment["score"] > 0`, map each to its cleaned record, then
`sorted(..., key=lambda x: x["score"], reverse=True)` — a stable descending
sort by score, modelled by `List.mergeSort` with the order
"score not smaller". -/
def clean_text_comments (cleanF : String → String) (cs : List RawComment) :
    List CleanedComment :=
  (((cs.filter (fun c => decide (0 < c.score))).map
    (fun c => ⟨cleanF c.body, c.author, c.score⟩)).mergeSort scoreDescB)

/-- A concrete run environment whose beat download receives HTTP 404 and
whose other external calls succeed; used to exercise the failure policy. -/
def demoEnvFail : SyncEnv where
  loadVocals := Except.ok ([1], 10)
  status := 404
  tempPath := "tmp.mp3"
  loadBeat := Except.ok ([1], 10)
  beatTrack := Except.ok (90, [0])
  vocalTempo := Except.ok 0
  timeStretch := Except.ok [1]
  onsets := Except.ok []
  writeWav := Except.ok ()
  writeMeta := Except.ok ()

/-- A concrete run environment in which every external call succeeds and the
single detected onset lies exactly on a beat-grid timestamp, so its offset
rounds to zero samples. -/
def demoEnvZero : SyncEnv where
  loadVocals := Except.ok ([1, 2], 4)
  status := 200
  tempPath := "tmp.mp3"
  loadBeat := Except.ok ([0], 4)
  beatTrack := Except.ok (90, [1])
  vocalTempo := Except.ok 0
  timeStretch := Except.ok [1, 2]
  onsets := Except.ok [1]
  writeWav := Except.ok ()
  writeMeta := Except.ok ()

/- ------------------------------------------------------------------ -/
/- Helper lemmas.                                                      -/
/- ------------------------------------------------------------------ -/

theorem init_le_foldl_max (l : List ℚ) :
    ∀ init : ℚ, init ≤ l.foldl (fun m x => max m |x|) init := by
  induction l with
  | nil => intro init; simp
  | cons a as ih =>
    intro init
    simpa only [List.foldl_cons] using
      le_trans (le_max_left init |a|) (ih (max init |a|))

theorem abs_le_foldl_max (l : List ℚ) :
    ∀ (init x : ℚ), x ∈ l → |x| ≤ l.foldl (fun m y => max m |y|) init := by
  induction l with
  | nil => intro _ x hx; cases hx
  | cons a as ih =>
    intro init x hx
    rcases List.mem_cons.1 hx with h | h
    · subst h
      simpa only [List.foldl_cons] using
        le_trans (le_max_right init |x|) (init_le_foldl_max as (max init |x|))
    · simpa only [List.foldl_cons] using ih (max init |a|) x h

theorem listPeak_nonneg (l : List ℚ) : 0 ≤ listPeak l :=
  init_le_foldl_max l 0

theorem abs_le_listPeak {l : List ℚ} {x : ℚ} (hx : x ∈ l) : |x| ≤ listPeak l :=
  abs_le_foldl_max l 0 x hx

theorem listPeak_replicate_zero (n : ℕ) : listPeak (List.replicate n 0) = 0 := by
  induction n with
  | zero => rfl
  | succ k ih =>
    simp only [listPeak, List.replicate_succ, List.foldl_cons] at ih ⊢
    simpa using ih

/- ------------------------------------------------------------------ -/
/- C1: mixing.                                                         -/
/- ------------------------------------------------------------------ -/

/-- Claim C1.  First conjunct: whenever `_mix_audio` produces a (finite)
result, every sample of the normalized mix has absolute value at most 1.
Second conjunct: for the silent mix (both inputs all-zero) the code reaches
the unguarded division `mixed / np.max(np.abs(mixed))` with a zero
denominator, so the result is the NaN waveform (`none`), not the zero
waveform the claim requires. -/
theorem mix_audio_bound_and_unguarded_silence :
    (∀ v b m, _mix_audio v b = some m → ∀ x ∈ m, |x| ≤ 1) ∧
    _mix_audio [0] [0] = none := by
  constructor
  · intro v b m hm x hx
    unfold _mix_audio at hm
    set mixed := List.zipWith (fun x y => x * (4/5) + y * (3/5))
      (v ++ List.replicate (max v.length b.length - v.length) 0)
      (b ++ List.replicate (max v.length b.length - b.length) 0) with hmixed
    by_cases hzero : listPeak mixed = 0
    · simp only [← hmixed, hzero, if_pos] at hm
      exact absurd hm (by simp)
    · simp only [← hmixed, hzero, if_neg, if_false] at hm
      obtain rfl : mixed.map (fun x => x / listPeak mixed) = m := by
        simpa using hm
      obtain ⟨y, hy, rfl⟩ := List.mem_map.1 hx
      have hpos : 0 < listPeak mixed :=
        lt_of_le_of_ne (listPeak_nonneg mixed) (Ne.symm hzero)
      rw [abs_div, abs_of_pos hpos, div_le_one hpos]
      exact abs_le_listPeak hy
  · norm_num [_mix_audio, listPeak]

/-- Witness for C1: a concrete non-silent mix evaluates to a normalized
waveform and the bound holds at its head sample. -/
theorem mix_audio_bound_witness :
    _mix_audio [(3:ℚ), 0] [0, 1] = some [1, 1/4] ∧ |(1:ℚ)| ≤ 1 := by
  have h : _mix_audio [(3:ℚ), 0] [0, 1] = some [1, 1/4] := by
    norm_num [_mix_audio, listPeak, abs_of_nonneg, abs_of_nonpos, max_def]
  exact ⟨h, mix_audio_bound_and_unguarded_silence.1 [3, 0] [0, 1] [1, 1/4] h 1
    (by simp)⟩

/- ------------------------------------------------------------------ -/
/- C4: limiting.                                                       -/
/- ------------------------------------------------------------------ -/

theorem clipSample_abs_le {tp : ℚ} (htp : 0 < tp) (x : ℚ) :
    |clipSample tp x| ≤ tp := by
  unfold clipSample
  split
  · rename_i h
    split
    · rw [abs_of_pos htp]
    · split
      · rw [abs_neg, abs_of_pos htp]
      · simpa using htp.le
  · rename_i h
    exact le_of_not_lt h

theorem clipSample_abs_le_self {tp : ℚ} (htp : 0 < tp) (x : ℚ) :
    |clipSample tp x| ≤ |x| := by
  unfold clipSample
  split
  · rename_i h
    split
    · rw [abs_of_pos htp]; exact le_of_lt h
    · split
      · rw [abs_neg, abs_of_pos htp]; exact le_of_lt h
      · simp
  · exact le_refl _

/-- Claim C4: the limiter never amplifies and its output peak is bounded by
the (linear) target peak `tp` (the code's `10 ** (-1.0 / 20)`, taken here as
an arbitrary positive rational parameter since the exact value is
irrational): every output sample has `|·| ≤ tp`, every output sample is no
larger in magnitude than the corresponding input sample, and the length is
preserved. -/
theorem apply_limiting_peak_bound (tp : ℚ) (wave : List ℚ)
    (htp : 0 < tp) (_hsil : listPeak wave ≠ 0) :
    (∀ x ∈ _apply_limiting tp wave, |x| ≤ tp) ∧
    (∀ i, |(_apply_limiting tp wave).getD i 0| ≤ |wave.getD i 0|) ∧
    (_apply_limiting tp wave).length = wave.length := by
  have hgain0 : 0 ≤ min (tp / listPeak wave) 1 :=
    le_min (div_nonneg htp.le (listPeak_nonneg wave)) zero_le_one
  have hgain1 : min (tp / listPeak wave) 1 ≤ 1 := min_le_right _ _
  refine ⟨?_, ?_, by simp [_apply_limiting]⟩
  · intro x hx
    unfold _apply_limiting at hx
    obtain ⟨y, _, rfl⟩ := List.mem_map.1 hx
    exact clipSample_abs_le htp y
  · intro i
    by_cases hi : i < wave.length
    · have hlen : i < ((wave.map (fun x => x * min (tp / listPeak wave) 1)).map
        (clipSample tp)).length := by simpa [_apply_limiting] using hi
      rw [_apply_limiting]
      rw [List.getD_eq_getElem?_getD, List.getElem?_map, List.getElem?_map]
      rw [List.getD_eq_getElem?_getD]
      rw [List.getElem?_eq_getElem hi]
      simp only [Option.map_some, Option.getD_some]
      refine le_trans (clipSample_abs_le_self htp _) ?_
      rw [abs_mul, abs_of_nonneg hgain0]
      calc |wave[i]| * min (tp / listPeak wave) 1
          ≤ |wave[i]| * 1 := by
            exact mul_le_mul_of_nonneg_left hgain1 (abs_nonneg _)
        _ = |wave[i]| := mul_one _
    · have h1 : (_apply_limiting tp wave).getD i 0 = 0 := by
        apply List.getD_eq_default
        simpa [_apply_limiting] using le_of_not_lt hi
      have h2 : wave.getD i 0 = 0 :=
        List.getD_eq_default _ _ (le_of_not_lt hi)
      rw [h1, h2]

/-- Witness for C4: the limiter applied to the concrete non-silent waveform
[2, -1/2] with target peak 9/10 does not amplify its head sample. -/
theorem apply_limiting_peak_bound_witness :
    |(_apply_limiting (9/10) [2, -1/2]).getD 0 0| ≤ |([(2:ℚ), -1/2]).getD 0 0| :=
  (apply_limiting_peak_bound (9/10) [2, -1/2] (by norm_num)
    (by norm_num [listPeak, max_def, abs_of_nonneg, abs_of_nonpos])).2.1 0

/- ------------------------------------------------------------------ -/
/- C9: compression.                                                    -/
/- ------------------------------------------------------------------ -/

theorem rawGain_pos (thr a : ℚ) (h : 0 ≤ thr) : 0 < rawGain thr a := by
  unfold rawGain
  split
  · rename_i hlt
    have ha : 0 < |a| := lt_of_le_of_lt h hlt
    apply div_pos _ ha
    linarith
  · norm_num

theorem rawGain_le_one (thr a : ℚ) (h : 0 ≤ thr) : rawGain thr a ≤ 1 := by
  unfold rawGain
  split
  · rename_i hlt
    have ha : 0 < |a| := lt_of_le_of_lt h hlt
    rw [div_le_one ha]
    linarith
  · exact le_refl 1

theorem smoothGain_pos {p r : ℚ} (hp : 0 < p) (hr : 0 < r) :
    0 < smoothGain p r := by
  unfold smoothGain
  split <;> linarith

theorem smoothGain_le_one {p r : ℚ} (hp : p ≤ 1) (hr : r ≤ 1) :
    smoothGain p r ≤ 1 := by
  unfold smoothGain
  split <;> linarith

theorem compressAux_spec (thr : ℚ) (hthr : 0 ≤ thr) :
    ∀ (l : List ℚ) (prev : Option ℚ),
      (∀ p, prev = some p → 0 < p ∧ p ≤ 1) →
      (compressAux thr prev l).length = l.length ∧
      ∀ i, ∃ g, 0 < g ∧ g ≤ 1 ∧
        (compressAux thr prev l).getD i 0 = l.getD i 0 * g := by
  intro l
  induction l with
  | nil =>
    intro prev _
    exact ⟨rfl, fun i => ⟨1, one_pos, le_refl 1, by simp [compressAux]⟩⟩
  | cons a rest ih =>
    intro prev hprev
    have hg : 0 < (match prev with
        | none => rawGain thr a
        | some p => smoothGain p (rawGain thr a)) ∧
        (match prev with
        | none => rawGain thr a
        | some p => smoothGain p (rawGain thr a)) ≤ 1 := by
      cases prev with
      | none => exact ⟨rawGain_pos thr a hthr, rawGain_le_one thr a hthr⟩
      | some p =>
        obtain ⟨hp0, hp1⟩ := hprev p rfl
        exact ⟨smoothGain_pos hp0 (rawGain_pos thr a hthr),
          smoothGain_le_one hp1 (rawGain_le_one thr a hthr)⟩
    obtain ⟨hrec1, hrec2⟩ := ih (some _) (fun p hp => by
      cases hp; exact hg)
    constructor
    · simpa [compressAux] using hrec1
    · intro i
      cases i with
      | zero => exact ⟨_, hg.1, hg.2, by simp [compressAux]⟩
      | succ i =>
        obtain ⟨g, h1, h2, h3⟩ := hrec2 i
        exact ⟨g, h1, h2, by simpa [compressAux] using h3⟩

/-- Claim C9: compression never amplifies.  For a nonnegative threshold (the
code's `np.mean(rms) * 1.5` is always nonnegative), the smoothed per-sample
gain stays in (0, 1], every output sample is the corresponding input sample
times such a gain, and hence no sample grows in magnitude. -/
theorem apply_compression_never_amplifies (thr : ℚ) (wave : List ℚ)
    (hthr : 0 ≤ thr) :
    ((_apply_compression thr wave).length = wave.length) ∧
    (∀ i, ∃ g, 0 < g ∧ g ≤ 1 ∧
      (_apply_compression thr wave).getD i 0 = wave.getD i 0 * g) ∧
    (∀ i, |(_apply_compression thr wave).getD i 0| ≤ |wave.getD i 0|) := by
  have e : _apply_compression thr wave = compressAux thr none wave := rfl
  obtain ⟨h1, h2⟩ := compressAux_spec thr hthr wave none (by simp)
  refine ⟨by rw [e]; exact h1, by rw [e]; exact h2, fun i => ?_⟩
  obtain ⟨g, hg0, hg1, heq⟩ := h2 i
  rw [e, heq, abs_mul, abs_of_pos hg0]
  calc |wave.getD i 0| * g ≤ |wave.getD i 0| * 1 :=
        mul_le_mul_of_nonneg_left hg1 (abs_nonneg _)
    _ = |wave.getD i 0| := mul_one _

/-- Witness for C9: on the concrete waveform [2, 1] with threshold 1/2 the
compressor's head output does not exceed the head input in magnitude. -/
theorem apply_compression_never_amplifies_witness :
    |(_apply_compression (1/2) [2, 1]).getD 0 0| ≤ |([(2:ℚ), 1]).getD 0 0| :=
  (apply_compression_never_amplifies (1/2) [2, 1] (by norm_num)).2.2 0

/- ------------------------------------------------------------------ -/
/- C7: mastering a silent waveform.                                    -/
/- ------------------------------------------------------------------ -/

theorem clipSample_zero (tp : ℚ) : clipSample tp 0 = 0 := by
  simp [clipSample]

theorem compressAux_replicate_zero (thr : ℚ) :
    ∀ (n : ℕ) (prev : Option ℚ),
      compressAux thr prev (List.replicate n 0) = List.replicate n 0 := by
  intro n
  induction n with
  | zero => intro prev; rfl
  | succ k ih =>
    intro prev
    simp only [List.replicate_succ, compressAux, zero_mul, ih]

theorem nproll_replicate_zero (k m : ℕ) :
    nproll k (List.replicate m (0:ℚ)) = List.replicate m 0 := by
  apply List.eq_replicate_iff.2
  constructor
  · simp [nproll]
  · intro b hb
    rw [nproll] at hb
    obtain ⟨i, rfl⟩ := (List.mem_ofFn _ _).1 hb
    simp

theorem apply_limiting_replicate_zero (tp : ℚ) (n : ℕ) :
    _apply_limiting tp (List.replicate n 0) = List.replicate n 0 := by
  unfold _apply_limiting
  rw [listPeak_replicate_zero]
  simp [clipSample_zero]

/-- Claim C7: mastering a silent (all-zero) waveform raises no exception —
every stage of the chain is total on it (in particular the limiter's
`target_peak / peak` division with `peak = 0` does not raise in numpy, it
yields `inf` and a unit gain, which on the all-zero signal coincides with
this model's output) — and the final output is the all-zero 2-channel
waveform.  The STFT/ISTFT round trip is external; the hypothesis `hT`
records that it maps the zero signal to a zero signal (linearity of the
transforms), with `m` its output length. -/
theorem master_audio_chain_silent_all_zero (thr tp : ℚ) (sr nfft n m : ℕ)
    (stftF : List ℚ → List (List ℚ)) (istftF : List (List ℚ) → List ℚ)
    (_hthr : 0 ≤ thr)
    (hT : istftF (_apply_eq sr nfft (stftF (List.replicate n 0))) =
      List.replicate m 0) :
    master_audio_chain thr tp sr nfft stftF istftF (List.replicate n 0) =
      List.replicate (m + m) 0 := by
  have hc : _apply_compression thr (List.replicate n 0) = List.replicate n 0 :=
    compressAux_replicate_zero thr n none
  unfold master_audio_chain
  simp only [hc, hT, _enhance_stereo]
  rw [nproll_replicate_zero, List.append_replicate_replicate,
    apply_limiting_replicate_zero]

/-- Witness for C7: a concrete silent run of the chain with a concrete
zero-preserving transform pair produces the all-zero stereo output. -/
theorem master_audio_chain_silent_all_zero_witness :
    master_audio_chain 0 (9/10) 22050 2048 (fun _ => [])
      (fun _ => List.replicate 3 0) (List.replicate 2 0) =
      List.replicate (3 + 3) 0 :=
  master_audio_chain_silent_all_zero 0 (9/10) 22050 2048 2 3
    (fun _ => []) (fun _ => List.replicate 3 0) (by norm_num) rfl

/- ------------------------------------------------------------------ -/
/- C5: EQ band gains.                                                  -/
/- ------------------------------------------------------------------ -/

theorem eqMultiplier_eval (sr nfft k : ℕ) :
    eqMultiplier sr nfft k =
      (if 20 ≤ fftFreq sr nfft k ∧ fftFreq sr nfft k ≤ 60 then 6/5 else 1) *
      (if 60 ≤ fftFreq sr nfft k ∧ fftFreq sr nfft k ≤ 250 then 11/10 else 1) *
      (if 250 ≤ fftFreq sr nfft k ∧ fftFreq sr nfft k ≤ 2000 then 9/10 else 1) *
      (if 2000 ≤ fftFreq sr nfft k ∧ fftFreq sr nfft k ≤ 6000 then 11/10 else 1) *
      (if 6000 ≤ fftFreq sr nfft k ∧ fftFreq sr nfft k ≤ ((sr / 2 : ℕ) : ℚ)
        then 21/20 else 1) := by
  simp only [eqMultiplier, eqBands, List.foldl_cons, List.foldl_nil]
  split_ifs <;> norm_num

/-- Counterexample to C5: at sample rate 32000 (FFT size 2048) bin 128 lies
exactly on the shared 2000 Hz boundary of the low-mids and high-mids bands;
it is contained in two bands and is multiplied by both gains
(0.9 × 1.1 = 0.99, which is neither single band's gain), and the DC bin
(0 Hz < 20 Hz) is contained in no band and receives no gain at all — so not
every bin receives exactly one band's gain, and a shared-boundary bin is
multiplied by two. -/
theorem apply_eq_shared_boundary_counterexample :
    fftFreq 32000 2048 128 = 2000 ∧
    countBands 32000 2048 128 = 2 ∧
    eqMultiplier 32000 2048 128 = 99/100 ∧
    ¬ (eqMultiplier 32000 2048 128 = 9/10 ∨ eqMultiplier 32000 2048 128 = 11/10) ∧
    countBands 32000 2048 0 = 0 ∧
    eqMultiplier 32000 2048 0 = 1 := by
  refine ⟨by norm_num [fftFreq], ?_, ?_, ?_, ?_, ?_⟩
  · norm_num [countBands, eqBands, fftFreq, List.filter]
  · norm_num [eqMultiplier, eqBands, fftFreq]
  · norm_num [eqMultiplier, eqBands, fftFreq]
  · norm_num [countBands, eqBands, fftFreq, List.filter]
  · norm_num [eqMultiplier, eqBands, fftFreq]

/-- Claim C5 as amended: each bin's multiplier is the product of the gains
of all bands whose inclusive range contains its frequency.  A bin strictly
inside a single band receives exactly that band's gain; a bin exactly on a
shared boundary (60, 250, 2000, 6000 Hz) receives the product of both
adjacent bands' gains; a bin below 20 Hz receives no gain. -/
theorem apply_eq_band_multiplier (sr nfft k : ℕ) :
    (fftFreq sr nfft k < 20 → eqMultiplier sr nfft k = 1) ∧
    (20 ≤ fftFreq sr nfft k → fftFreq sr nfft k < 60 →
      eqMultiplier sr nfft k = 6/5) ∧
    (fftFreq sr nfft k = 60 → eqMultiplier sr nfft k = 33/25) ∧
    (60 < fftFreq sr nfft k → fftFreq sr nfft k < 250 →
      eqMultiplier sr nfft k = 11/10) ∧
    (fftFreq sr nfft k = 250 → eqMultiplier sr nfft k = 99/100) ∧
    (250 < fftFreq sr nfft k → fftFreq sr nfft k < 2000 →
      eqMultiplier sr nfft k = 9/10) ∧
    (fftFreq sr nfft k = 2000 → eqMultiplier sr nfft k = 99/100) ∧
    (2000 < fftFreq sr nfft k → fftFreq sr nfft k < 6000 →
      eqMultiplier sr nfft k = 11/10) ∧
    (fftFreq sr nfft k = 6000 → (6000 : ℚ) ≤ ((sr / 2 : ℕ) : ℚ) →
      eqMultiplier sr nfft k = 231/200) ∧
    (6000 < fftFreq sr nfft k → fftFreq sr nfft k ≤ ((sr / 2 : ℕ) : ℚ) →
      eqMultiplier sr nfft k = 21/20) := by
  refine ⟨?_, ?_, ?_, ?_, ?_, ?_, ?_, ?_, ?_, ?_⟩ <;>
    rw [eqMultiplier_eval]
  · intro h
    rw [if_neg (by rintro ⟨a, b⟩; linarith), if_neg (by rintro ⟨a, b⟩; linarith),
      if_neg (by rintro ⟨a, b⟩; linarith), if_neg (by rintro ⟨a, b⟩; linarith),
      if_neg (by rintro ⟨a, b⟩; linarith)]
    norm_num
  · intro h1 h2
    rw [if_pos ⟨by linarith, by linarith⟩, if_neg (by rintro ⟨a, b⟩; linarith),
      if_neg (by rintro ⟨a, b⟩; linarith), if_neg (by rintro ⟨a, b⟩; linarith),
      if_neg (by rintro ⟨a, b⟩; linarith)]
    norm_num
  · intro h
    rw [if_pos ⟨by linarith, by linarith⟩, if_pos ⟨by linarith, by linarith⟩,
      if_neg (by rintro ⟨a, b⟩; linarith), if_neg (by rintro ⟨a, b⟩; linarith),
      if_neg (by rintro ⟨a, b⟩; linarith)]
    norm_num
  · intro h1 h2
    rw [if_neg (by rintro ⟨a, b⟩; linarith), if_pos ⟨by linarith, by linarith⟩,
      if_neg (by rintro ⟨a, b⟩; linarith), if_neg (by rintro ⟨a, b⟩; linarith),
      if_neg (by rintro ⟨a, b⟩; linarith)]
    norm_num
  · intro h
    rw [if_neg (by rintro ⟨a, b⟩; linarith), if_pos ⟨by linarith, by linarith⟩,
      if_pos ⟨by linarith, by linarith⟩, if_neg (by rintro ⟨a, b⟩; linarith),
      if_neg (by rintro ⟨a, b⟩; linarith)]
    norm_num
  · intro h1 h2
    rw [if_neg (by rintro ⟨a, b⟩; linarith), if_neg (by rintro ⟨a, b⟩; linarith),
      if_pos ⟨by linarith, by linarith⟩, if_neg (by rintro ⟨a, b⟩; linarith),
      if_neg (by rintro ⟨a, b⟩; linarith)]
    norm_num
  · intro h
    rw [if_neg (by rintro ⟨a, b⟩; linarith), if_neg (by rintro ⟨a, b⟩; linarith),
      if_pos ⟨by linarith, by linarith⟩, if_pos ⟨by linarith, by linarith⟩,
      if_neg (by rintro ⟨a, b⟩; linarith)]
    norm_num
  · intro h1 h2
    rw [if_neg (by rintro ⟨a, b⟩; linarith), if_neg (by rintro ⟨a, b⟩; linarith),
      if_neg (by rintro ⟨a, b⟩; linarith), if_pos ⟨by linarith, by linarith⟩,
      if_neg (by rintro ⟨a, b⟩; linarith)]
    norm_num
  · intro h1 h2
    rw [if_neg (by rintro ⟨a, b⟩; linarith), if_neg (by rintro ⟨a, b⟩; linarith),
      if_neg (by rintro ⟨a, b⟩; linarith), if_pos ⟨by linarith, by linarith⟩,
      if_pos ⟨by linarith, by linarith⟩]
    norm_num
  · intro h1 h2
    rw [if_neg (by rintro ⟨a, b⟩; linarith), if_neg (by rintro ⟨a, b⟩; linarith),
      if_neg (by rintro ⟨a, b⟩; linarith), if_neg (by rintro ⟨a, b⟩; linarith),
      if_pos ⟨by linarith, by linarith⟩]
    norm_num

/-- Witness for C5's amended statement: one concrete bin in each region —
DC (no band), inside sub-bass, exactly 60 Hz, inside bass, exactly 250 Hz,
inside low-mids, exactly 2000 Hz, inside high-mids, exactly 6000 Hz, and
inside highs. -/
theorem apply_eq_band_multiplier_witness :
    eqMultiplier 22050 2048 0 = 1 ∧
    eqMultiplier 22050 2048 3 = 6/5 ∧
    eqMultiplier 61440 2048 2 = 33/25 ∧
    eqMultiplier 22050 2048 10 = 11/10 ∧
    eqMultiplier 2000 2048 256 = 99/100 ∧
    eqMultiplier 22050 2048 100 = 9/10 ∧
    eqMultiplier 22050 2048 300 = 11/10 ∧
    eqMultiplier 12000 2048 1024 = 231/200 ∧
    eqMultiplier 22050 2048 600 = 21/20 :=
  ⟨(apply_eq_band_multiplier 22050 2048 0).1 (by norm_num [fftFreq]),
   (apply_eq_band_multiplier 22050 2048 3).2.1 (by norm_num [fftFreq])
     (by norm_num [fftFreq]),
   (apply_eq_band_multiplier 61440 2048 2).2.2.1 (by norm_num [fftFreq]),
   (apply_eq_band_multiplier 22050 2048 10).2.2.2.1 (by norm_num [fftFreq])
     (by norm_num [fftFreq]),
   (apply_eq_band_multiplier 2000 2048 256).2.2.2.2.1 (by norm_num [fftFreq]),
   (apply_eq_band_multiplier 22050 2048 100).2.2.2.2.2.1 (by norm_num [fftFreq])
     (by norm_num [fftFreq]),
   (apply_eq_band_multiplier 22050 2048 300).2.2.2.2.2.2.2.1
     (by norm_num [fftFreq]) (by norm_num [fftFreq]),
   (apply_eq_band_multiplier 12000 2048 1024).2.2.2.2.2.2.2.2.1
     (by norm_num [fftFreq]) (by norm_num),
   (apply_eq_band_multiplier 22050 2048 600).2.2.2.2.2.2.2.2.2
     (by norm_num [fftFreq]) (by norm_num [fftFreq])⟩

/- ------------------------------------------------------------------ -/
/- C6: stereo enhancement.                                             -/
/- ------------------------------------------------------------------ -/

theorem nproll_getD (k : ℕ) (a : List ℚ) (j : ℕ) (hj : j < a.length) :
    (nproll k a).getD j 0 =
      a.getD ((((j : ℤ) - (k : ℤ)) % (a.length : ℤ)).toNat) 0 := by
  have hm : ((((j : ℤ) - (k : ℤ)) % (a.length : ℤ)).toNat) < a.length := by
    have hpos : (0:ℤ) < (a.length : ℤ) := by
      exact_mod_cast Nat.zero_lt_of_lt hj
    have h1 := Int.emod_nonneg ((j : ℤ) - (k : ℤ))
      (by omega : (a.length : ℤ) ≠ 0)
    have h2 := Int.emod_lt_of_pos ((j : ℤ) - (k : ℤ)) hpos
    omega
  unfold nproll
  simp only [List.getD_eq_getElem?_getD, List.getElem?_ofFn, List.ofFnNthVal]
  rw [dif_pos hj]
  rw [List.getElem?_eq_getElem hm]
  simp [List.get_eq_getElem]

/-- Counterexample to C6: on the one-sample input [5] the code's second
channel is `np.roll([5], 882) = [5]` (the roll wraps the tail around),
whereas the claimed 882-sample delay of [5] (at the input's length) is the
silent [0]; the channels differ, so channel 2 is not "the input delayed". -/
theorem enhance_stereo_roll_counterexample :
    (_enhance_stereo [5]).2 = [5] ∧
    specDelayedBy 882 [5] = [0] ∧
    (_enhance_stereo [5]).2 ≠ specDelayedBy 882 [5] := by
  have h1 : (_enhance_stereo [5]).2 = [5] := by
    norm_num [_enhance_stereo, nproll, List.ofFn_succ, List.ofFn_zero]
  have h2 : specDelayedBy 882 [5] = [0] := by
    norm_num [specDelayedBy, List.ofFn_succ, List.ofFn_zero]
  refine ⟨h1, h2, ?_⟩
  rw [h1, h2]
  simp

/-- Claim C6 as amended: the stage returns two channels of the input's
length; channel 1 equals the input; channel 2 is the input circularly
rotated right by `int(0.02 * 44100) = 882` samples (`np.roll`): at indices
`j ≥ 882` it equals the input delayed by 882 samples, while the first
`882` indices wrap around from the input's tail (they are not silence). -/
theorem enhance_stereo_channels (wave : List ℚ) :
    (_enhance_stereo wave).1 = wave ∧
    (_enhance_stereo wave).2.length = wave.length ∧
    (∀ j, 882 ≤ j → j < wave.length →
      (_enhance_stereo wave).2.getD j 0 = wave.getD (j - 882) 0) ∧
    (∀ j, j < wave.length →
      (_enhance_stereo wave).2.getD j 0 =
        wave.getD ((((j : ℤ) - 882) % (wave.length : ℤ)).toNat) 0) := by
  refine ⟨rfl, by simp [_enhance_stereo, nproll], ?_, ?_⟩
  · intro j hj1 hj2
    have h := nproll_getD 882 wave j hj2
    have he : (((j : ℤ) - ((882:ℕ) : ℤ)) % (wave.length : ℤ)) =
        (j : ℤ) - ((882:ℕ) : ℤ) := by
      apply Int.emod_eq_of_lt
      · omega
      · omega
    have hidx : (((j : ℤ) - ((882:ℕ) : ℤ)).toNat) = j - 882 := by omega
    show (nproll 882 wave).getD j 0 = wave.getD (j - 882) 0
    rw [h, he, hidx]
  · intro j hj
    exact nproll_getD 882 wave j hj

/-- Witness for C6's amended statement: on a concrete 883-sample waveform,
channel 2 at index 882 equals the input at index 0 (the delay part). -/
theorem enhance_stereo_channels_witness :
    (_enhance_stereo (List.replicate 883 (0:ℚ))).2.getD 882 0 =
      (List.replicate 883 (0:ℚ)).getD (882 - 882) 0 :=
  (enhance_stereo_channels (List.replicate 883 0)).2.2.1 882 (by norm_num)
    (by norm_num [List.length_replicate])

/- ------------------------------------------------------------------ -/
/- C8: sanitizer comment processing.                                   -/
/- ------------------------------------------------------------------ -/

theorem scoreDescB_trans : ∀ a b c : CleanedComment,
    scoreDescB a b → scoreDescB b c → scoreDescB a c := by
  intro a b c hab hbc
  simp only [scoreDescB, decide_eq_true_eq] at *
  exact le_trans hbc hab

theorem scoreDescB_total : ∀ a b : CleanedComment,
    scoreDescB a b || scoreDescB b a := by
  intro a b
  simp only [scoreDescB, Bool.or_eq_true, decide_eq_true_eq]
  exact le_total b.score a.score

/-- Claim C8: the sanitizer's output comment list consists of exactly the
input comments with strictly positive score (as a permutation of the
filtered input, each mapped to its cleaned record with text cleaned and
author and score preserved), and is pairwise sorted by score in descending
order. -/
theorem clean_text_comments_spec (f : String → String) (cs : List RawComment) :
    (clean_text_comments f cs).Perm
      ((cs.filter (fun c => decide (0 < c.score))).map
        (fun c => ⟨f c.body, c.author, c.score⟩)) ∧
    List.Pairwise (fun a b : CleanedComment => b.score ≤ a.score)
      (clean_text_comments f cs) := by
  constructor
  · exact List.mergeSort_perm _ _
  · have h := List.sorted_mergeSort scoreDescB_trans scoreDescB_total
      ((cs.filter (fun c => decide (0 < c.score))).map
        (fun c : RawComment => (⟨f c.body, c.author, c.score⟩ : CleanedComment)))
    exact h.imp (fun hab => by
      simpa only [scoreDescB, decide_eq_true_eq] using hab)

/- ------------------------------------------------------------------ -/
/- Grid alignment: shared lemmas for C2 and C10.                       -/
/- ------------------------------------------------------------------ -/

theorem broadcastOk_of_pos (n : ℕ) (a : Bool × ℕ) (h : 1 ≤ a.2) :
    broadcastOk n a = true := by
  rcases a with ⟨pos, s⟩
  cases pos <;> simp [broadcastOk] <;> omega

theorem broadcastOk_zero_shift (n : ℕ) (a : Bool × ℕ)
    (hn : 2 ≤ n) (h : a.2 = 0) : broadcastOk n a = false := by
  rcases a with ⟨pos, s⟩
  simp only at h
  subst h
  cases pos <;> simp [broadcastOk] <;> omega

theorem alignWrite_length (wave out : List ℚ) (a : Bool × ℕ) :
    (alignWrite wave out a).length = out.length := by
  simp [alignWrite]

theorem alignWrite_getD (wave out : List ℚ) (a : Bool × ℕ) (j : ℕ)
    (hj : j < out.length) :
    (alignWrite wave out a).getD j 0 =
      if coversb wave.length a j then shiftedVal wave a j else out.getD j 0 := by
  unfold alignWrite
  rw [List.getD_eq_getElem?_getD, List.getElem?_map, List.getElem?_range hj]
  rfl

theorem foldlM_alignStep_some (wave : List ℚ) :
    ∀ (acts : List (Bool × ℕ)),
      (∀ a ∈ acts, broadcastOk wave.length a = true) →
      ∀ init, acts.foldlM (alignStep wave) init =
        some (acts.foldl (alignWrite wave) init) := by
  intro acts
  induction acts with
  | nil => intro _ init; rfl
  | cons a as ih =>
    intro hall init
    rw [List.foldlM_cons, List.foldl_cons]
    rw [alignStep, if_pos (hall a (List.mem_cons_self a as))]
    simpa using ih (fun b hb => hall b (List.mem_cons_of_mem a hb)) _

theorem foldlM_alignStep_none (wave : List ℚ) :
    ∀ (acts : List (Bool × ℕ)) (a : Bool × ℕ), a ∈ acts →
      broadcastOk wave.length a = false →
      ∀ init, acts.foldlM (alignStep wave) init = none := by
  intro acts
  induction acts with
  | nil => intro a ha; cases ha
  | cons b bs ih =>
    intro a ha hfail init
    rw [List.foldlM_cons]
    rcases List.mem_cons.1 ha with rfl | ha2
    · rw [alignStep, if_neg (by simp [hfail])]
      rfl
    · cases hstep : alignStep wave init b with
      | none => simp
      | some out =>
        simpa using ih a ha2 hfail out

theorem foldl_alignWrite_length (wave : List ℚ) :
    ∀ (acts : List (Bool × ℕ)) (out : List ℚ),
      (acts.foldl (alignWrite wave) out).length = out.length := by
  intro acts
  induction acts with
  | nil => intro out; rfl
  | cons a as ih =>
    intro out
    rw [List.foldl_cons, ih, alignWrite_length]

theorem foldl_alignWrite_getD (wave : List ℚ) :
    ∀ (acts : List (Bool × ℕ)) (out : List ℚ), out.length = wave.length →
      ∀ j, j < wave.length →
        (acts.foldl (alignWrite wave) out).getD j 0 =
          match acts.reverse.find? (fun a => coversb wave.length a j) with
          | some a => shiftedVal wave a j
          | none => out.getD j 0 := by
  intro acts
  induction acts with
  | nil => intro out hlen j hj; simp
  | cons a as ih =>
    intro out hlen j hj
    rw [List.foldl_cons]
    rw [ih (alignWrite wave out a) (by rw [alignWrite_length]; exact hlen) j hj]
    rw [List.reverse_cons, List.find?_append]
    cases hfind : as.reverse.find? (fun x => coversb wave.length x j) with
    | some a2 => simp
    | none =>
      simp only [Option.none_or]
      rw [alignWrite_getD wave out a j (by rw [hlen]; exact hj)]
      cases hcov : coversb wave.length a j with
      | true => simp [List.find?_cons, hcov]
      | false => simp [List.find?_cons, hcov]

theorem getD_replicate_zero (n j : ℕ) :
    (List.replicate n (0:ℚ)).getD j 0 = 0 := by
  rw [List.getD_eq_getElem?_getD, List.getElem?_replicate]
  split <;> rfl

/-- Claim C2: grid alignment writes, for each detected onset in order, the
waveform shifted by that onset's signed offset into the shared output
buffer — a positive offset of `s` samples places `audio[j - s]` at output
index `j ≥ s` (with silence below `s` unless an earlier onset wrote there),
a negative offset places `audio[j + s]` at `j < n - s` (dropping `s` head
samples) — and in overlapping written regions the value is that of the
last onset covering the index (last-onset-wins); indices no onset writes
remain silent.  Hypotheses: the beat grid is nonempty when there are
onsets (else `np.argmin` raises), and every offset rounds to at least one
sample (a zero-sample shift raises; see C10). -/
theorem align_to_grid_last_onset_wins (sr : ℕ) (wave beats onsets : List ℚ)
    (hb : beats ≠ [] ∨ onsets = [])
    (hs : ∀ t ∈ onsets, 1 ≤ (actOf sr beats t).2) :
    ∃ out, _align_to_grid sr wave beats onsets = some out ∧
      out.length = wave.length ∧
      ∀ j, j < wave.length →
        out.getD j 0 = lastOnsetValue wave (onsets.map (actOf sr beats)) j := by
  have hcond : ¬ (beats = [] ∧ onsets ≠ []) := by
    rintro ⟨hb1, hb2⟩
    rcases hb with h | h
    · exact h hb1
    · exact hb2 h
  have hall : ∀ a ∈ onsets.map (actOf sr beats),
      broadcastOk wave.length a = true := by
    intro a ha
    obtain ⟨t, ht, rfl⟩ := List.mem_map.1 ha
    exact broadcastOk_of_pos _ _ (hs t ht)
  refine ⟨(onsets.map (actOf sr beats)).foldl (alignWrite wave)
    (List.replicate wave.length 0), ?_, ?_, ?_⟩
  · unfold _align_to_grid
    rw [if_neg hcond]
    exact foldlM_alignStep_some wave _ hall _
  · rw [foldl_alignWrite_length, List.length_replicate]
  · intro j hj
    rw [foldl_alignWrite_getD wave _ _ (List.length_replicate _ _) j hj]
    unfold lastOnsetValue
    cases (onsets.map (actOf sr beats)).reverse.find?
        (fun a => coversb wave.length a j) with
    | some a => rfl
    | none => exact getD_replicate_zero _ _

/-- Witness for C2: a concrete alignment run (sr = 2, one onset at t = 0
snapping to the beat at t = 1, a 2-sample positive shift). -/
theorem align_to_grid_last_onset_wins_witness :
    ∃ out, _align_to_grid 2 [1, 2, 3, 4] [1] [0] = some out ∧
      out.length = ([1, 2, 3, 4] : List ℚ).length ∧
      ∀ j, j < ([1, 2, 3, 4] : List ℚ).length →
        out.getD j 0 = lastOnsetValue [1, 2, 3, 4] ([0].map (actOf 2 [1])) j :=
  align_to_grid_last_onset_wins 2 [1, 2, 3, 4] [1] [0]
    (Or.inl (by simp))
    (by
      intro t ht
      rw [List.mem_singleton] at ht
      subst ht
      norm_num [actOf, nearestBeat])

/- ------------------------------------------------------------------ -/
/- C3 and C10: sync control flow.                                      -/
/- ------------------------------------------------------------------ -/

theorem except_bind_ok {ε α β : Type} {x : Except ε α} {f : α → Except ε β}
    {b : β} (h : Except.bind x f = Except.ok b) :
    ∃ a, x = Except.ok a ∧ f a = Except.ok b := by
  cases x with
  | error e => simp [Except.bind] at h
  | ok a => exact ⟨a, rfl, h⟩

theorem except_bind_of_ok {ε α β : Type} (a : α) (f : α → Except ε β) :
    Except.bind (Except.ok a) f = f a := rfl

theorem except_bind_of_error {ε α β : Type} (e : ε) (f : α → Except ε β) :
    Except.bind (Except.error e) f = Except.error e := rfl

theorem syncBody_ok_eq (env : SyncEnv) (url s : String)
    (h : syncBody env url = Except.ok s) :
    s = "data/audio/synced_track.wav" := by
  unfold syncBody at h
  obtain ⟨a1, h1, h⟩ := except_bind_ok h
  obtain ⟨a2, h2, h⟩ := except_bind_ok h
  obtain ⟨a3, h3, h⟩ := except_bind_ok h
  obtain ⟨a4, h4, h⟩ := except_bind_ok h
  obtain ⟨a5, h5, h⟩ := except_bind_ok h
  obtain ⟨a6, h6, h⟩ := except_bind_ok h
  obtain ⟨a7, h7, h⟩ := except_bind_ok h
  obtain ⟨a8, h8, h⟩ := except_bind_ok h
  obtain ⟨a9, h9, h⟩ := except_bind_ok h
  obtain ⟨a10, h10, h⟩ := except_bind_ok h
  obtain ⟨a11, h11, h⟩ := except_bind_ok h
  exact (Except.ok.inj h).symm

/-- Claim C3: `sync_to_beat` never lets an exception escape — it returns
either the fixed output path (full success) or the original vocals path;
whenever any sub-step raises (the body evaluates to an error) it returns
the original vocals path; and in particular a non-success HTTP status on
the beat download makes it return the original vocals path. -/
theorem sync_to_beat_failure_policy (env : SyncEnv) (vp url : String) :
    (sync_to_beat env vp url = vp ∨
      sync_to_beat env vp url = "data/audio/synced_track.wav") ∧
    (∀ e, syncBody env url = Except.error e → sync_to_beat env vp url = vp) ∧
    (env.status ≠ 200 → sync_to_beat env vp url = vp) := by
  refine ⟨?_, ?_, ?_⟩
  · cases h : syncBody env url with
    | error e =>
      left
      unfold sync_to_beat
      rw [h]
    | ok s =>
      right
      unfold sync_to_beat
      rw [h]
      exact syncBody_ok_eq env url s h
  · intro e he
    unfold sync_to_beat
    rw [he]
  · intro h200
    have hbody : ∃ e, syncBody env url = Except.error e := by
      cases hl : env.loadVocals with
      | error e =>
        refine ⟨e, ?_⟩
        unfold syncBody
        rw [hl]
        rfl
      | ok vs =>
        refine ⟨"Failed to download beat: " ++ toString env.status, ?_⟩
        unfold syncBody _download_beat
        rw [hl]
        simp only [except_bind_of_ok]
        rw [if_neg h200]
        rfl
    obtain ⟨e, he⟩ := hbody
    unfold sync_to_beat
    rw [he]

/-- Witness for C3: the concrete environment whose download receives HTTP
404 makes `sync_to_beat` return the original vocals path. -/
theorem sync_to_beat_failure_policy_witness :
    sync_to_beat demoEnvFail "vocals.wav" "u" = "vocals.wav" :=
  (sync_to_beat_failure_policy demoEnvFail "vocals.wav" "u").2.2 (by decide)

theorem align_to_grid_none_of_zero_shift (sr : ℕ)
    (wave beats onsets : List ℚ) (hn : 2 ≤ wave.length)
    (hz : ∃ t ∈ onsets, (actOf sr beats t).2 = 0) :
    _align_to_grid sr wave beats onsets = none := by
  obtain ⟨t, ht, hzero⟩ := hz
  unfold _align_to_grid
  split
  · rfl
  · exact foldlM_alignStep_none wave _ (actOf sr beats t)
      (List.mem_map_of_mem _ ht)
      (broadcastOk_zero_shift _ _ hn hzero) _

/-- Claim C10: when a detected onset's offset to its nearest beat rounds to
zero samples (in particular an onset exactly on a beat), the slice
assignment in `_align_to_grid` is shape-incompatible (`audio[:-0]` is the
empty slice) and raises, the `except` handler in `sync_to_beat` catches it,
and the whole synchronization degrades to returning the original vocals
path.  (A waveform of at least 2 samples is assumed; numpy broadcasting
lets the degenerate 0- and 1-sample waveforms through.) -/
theorem zero_offset_onset_degrades_to_passthrough
    (env : SyncEnv) (vp url : String) (v stretched beat : List ℚ)
    (vsr bsr : ℕ) (bt vt : ℚ) (btimes ons : List ℚ)
    (h1 : env.loadVocals = Except.ok (v, vsr)) (h2 : env.status = 200)
    (h3 : env.loadBeat = Except.ok (beat, bsr))
    (h4 : env.beatTrack = Except.ok (bt, btimes))
    (h5 : env.vocalTempo = Except.ok vt)
    (h6 : (if 0 < vt then env.timeStretch else Except.ok v) = Except.ok stretched)
    (h7 : env.onsets = Except.ok ons)
    (hn : 2 ≤ stretched.length)
    (hz : ∃ t ∈ ons, (actOf vsr btimes t).2 = 0) :
    sync_to_beat env vp url = vp := by
  have halign := align_to_grid_none_of_zero_shift vsr stretched btimes ons hn hz
  have hbody : syncBody env url =
      Except.error "could not broadcast input array" := by
    unfold syncBody _download_beat
    rw [h1, h2, h3, h4, h5, h7]
    simp only [except_bind_of_ok, eq_self_iff_true, if_true]
    rw [h6]
    simp only [except_bind_of_ok]
    rw [halign]
    rfl
  unfold sync_to_beat
  rw [hbody]

/-- Witness for C10: the concrete environment whose single onset lies
exactly on a beat makes `sync_to_beat` return the original vocals path. -/
theorem zero_offset_onset_degrades_to_passthrough_witness :
    sync_to_beat demoEnvZero "vocals.wav" "u" = "vocals.wav" :=
  zero_offset_onset_degrades_to_passthrough demoEnvZero "vocals.wav" "u"
    [1, 2] [1, 2] [0] 4 4 90 0 [1] [1]
    rfl rfl rfl rfl rfl (by norm_num) rfl (by norm_num)
    ⟨1, by simp, by norm_num [actOf, nearestBeat]⟩

end RedDiss
